import Mathlib

/-!
Verification of the persona crawler core (`src/main.py`): text
normalization, keyword scoring, issue diagnosis, recommendation lookup,
page classification and the breadth-first crawl engine, embedded
shallowly.  Text is modelled as `List Char` (the character sequence of a
Python `str`).  External library capabilities used by the source (HTTP
fetching via `requests`, HTML parsing via BeautifulSoup, URL resolution
via `urllib.parse`) are not part of the repository; they appear as
oracle parameters bundled in the `Env` structure, while every piece of
logic written in `main.py` itself is transcribed directly.
-/

set_option autoImplicit false

/-- Model of the Python regex class `\s` on ASCII text: space, tab,
newline, carriage return, vertical tab and form feed (character codes
32, 9, 10, 13, 11, 12). -/
def pySpace (c : Char) : Bool :=
  c.toNat = 32 || c.toNat = 9 || c.toNat = 10 || c.toNat = 13 ||
    c.toNat = 11 || c.toNat = 12

/-- Model of Python `str.lower` on one character (ASCII range: codes
65 to 90 are the uppercase letters, adding 32 reaches the lowercase
letters). -/
def pyToLower (c : Char) : Char :=
  if 65 ≤ c.toNat ∧ c.toNat ≤ 90 then Char.ofNat (c.toNat + 32) else c

/-- Model of Python `str.lower` on a whole string. -/
def lowerStr (l : List Char) : List Char :=
  l.map pyToLower

/-- Model of `re.sub(r"\s+", " ", text)`: every maximal run of
whitespace characters is replaced by a single space.  The Boolean flag
records whether the scan is inside a whitespace run whose single
replacement space has already been emitted. -/
def collapseAux : Bool → List Char → List Char
  | _, [] => []
  | inRun, c :: rest =>
    if pySpace c then
      if inRun then collapseAux true rest
      else ' ' :: collapseAux true rest
    else c :: collapseAux false rest

/-- Whitespace collapsing as performed by line 114 of `main.py`. -/
def collapseWS (l : List Char) : List Char :=
  collapseAux false l

/-- In-repository tail of `clean_text` (line 114 of `main.py`):
whitespace collapse by the regex substitution followed by
lowercasing. -/
def normStage (s : String) : String :=
  ⟨lowerStr (collapseWS s.data)⟩

/-- Embedding of `clean_text` (lines 109-114 of `main.py`).  The
BeautifulSoup part (parse the markup, decompose `script`/`style`/
`noscript` elements, and join the remaining text nodes with a single
space separator, as done by `soup.get_text(separator=" ")`) is an
external library capability and is passed in as the oracle `get_text`;
the regex whitespace collapse and the lowercasing are the code of the
repository and are transcribed. -/
def clean_text (get_text : String → String) (html : String) : String :=
  normStage (get_text html)

/-- Scanning loop of Python `str.count` for a fixed pattern `w`:
non-overlapping occurrences are counted greedily from the left; after
a match the scan resumes immediately after the matched block.  The
third argument is the number of characters of the current match that
remain to be skipped, so the definition is structurally recursive and
evaluates inside the kernel. -/
def pyCntSkip : List Char → List Char → Nat → Nat
  | [], _, _ => 0
  | c :: rest, w, 0 =>
    if w.isPrefixOf (c :: rest) then 1 + pyCntSkip rest w (w.length - 1)
    else pyCntSkip rest w 0
  | _ :: rest, w, k + 1 => pyCntSkip rest w k

/-- Proof-friendly form of the same greedy scan: after a match, drop
the matched block wholesale and continue. -/
def pyCountAux : List Char → List Char → Nat
  | [], _ => 0
  | c :: rest, w =>
    if w.isPrefixOf (c :: rest) then 1 + pyCountAux (rest.drop (w.length - 1)) w
    else pyCountAux rest w
termination_by t _ => t.length
decreasing_by
  · simp only [List.length_drop, List.length_cons]
    omega
  · simp

/-- Model of Python `text.count(w)` (an empty pattern is counted
`len(text) + 1` times, exactly as Python does). -/
def pyCount (t w : List Char) : Nat :=
  if w.isEmpty then t.length + 1 else pyCntSkip t w 0

/-- Embedding of `count_hits` (lines 116-117 of `main.py`):
`sum(text.count(w) for w in words)`. -/
def count_hits (text : String) (words : List String) : Nat :=
  (words.map (fun w => pyCount text.data w.data)).sum

/-- Proposition: the pattern `w` occurs in `t` starting at index `i`. -/
def matchesAt (t w : List Char) (i : Nat) : Prop :=
  (t.drop i).take w.length = w

/-- Start indices of the occurrences found by the greedy scan of
`pyCountAux`, with `i` the absolute index of the scan position. -/
def occListAux : List Char → List Char → Nat → List Nat
  | [], _, _ => []
  | c :: rest, w, i =>
    if w.isPrefixOf (c :: rest) then
      i :: occListAux (rest.drop (w.length - 1)) w (i + 1 + (w.length - 1))
    else occListAux rest w (i + 1)
termination_by t _ _ => t.length
decreasing_by
  · simp only [List.length_drop, List.length_cons]
    omega
  · simp

/-- Occurrence start indices selected by the greedy non-overlapping
scan of `text.count`. -/
def occList (t w : List Char) : List Nat :=
  occListAux t w 0

/-- A position list is non-overlapping for window `k` when consecutive
positions are at least `k` apart (in particular it is sorted). -/
def gapped (k : Nat) (P : List Nat) : Prop :=
  P.Chain' (fun a b => a + k ≤ b)

/-- A persona profile: the three keyword lists of one entry of the
`PERSONAS` table. -/
structure Persona where
  positive : List String
  negative : List String
  proof : List String
deriving DecidableEq

/-- Result dictionary of `score_persona`. -/
structure ScoreResult where
  score : Int
  positive_hits : Nat
  negative_hits : Nat
  proof_hits : Nat
deriving DecidableEq

/-- Embedding of `score_persona` (lines 119-130 of `main.py`). -/
def score_persona (text : String) (persona : Persona) : ScoreResult :=
  let pos := count_hits text persona.positive
  let neg := count_hits text persona.negative
  let prf := count_hits text persona.proof
  let raw_score : Int := (pos : Int) * 3 + (prf : Int) * 5 - (neg : Int) * 4
  { score := max 0 (min 100 raw_score),
    positive_hits := pos,
    negative_hits := neg,
    proof_hits := prf }

/-- Embedding of `diagnose` (lines 132-142 of `main.py`); the issue
list is built by the four conditional appends in source order. -/
def diagnose (score : Int) (pos neg prf : Nat) : List String :=
  (if score < 50 then ["overall_low"] else []) ++
  (if prf = 0 then ["missing_proof"] else []) ++
  (if pos < 2 then ["weak_language"] else []) ++
  (if neg > 0 then ["conflicting_language"] else [])

/-- Embedding of `priority` (lines 144-149 of `main.py`). -/
def priority (score : Int) : String :=
  if score < 40 then "HIGH"
  else if score < 60 then "MEDIUM"
  else "LOW"

/-- Model of the Python substring test `pat in t`. -/
def containsSub : List Char → List Char → Bool
  | [], pat => pat.isEmpty
  | c :: rest, pat => pat.isPrefixOf (c :: rest) || containsSub rest pat

/-- Embedding of `detect_page_type` (lines 151-159 of `main.py`);
`url.count("/")` is the number of slash characters and `endswith` is a
suffix test. -/
def detect_page_type (url : String) : String :=
  if ['/'].isSuffixOf url.data ∨ pyCount url.data ['/'] ≤ 3 then "Homepage / Landing"
  else if containsSub url.data "product".data then "Product Page"
  else if containsSub url.data "collection".data ∨ containsSub url.data "category".data then
    "Collection Page"
  else "Other"

/-- The `"Fixer"` entry of the `PERSONAS` table (lines 39-43). -/
def fixerProfile : Persona :=
  { positive := ["fast", "instant", "today", "solve", "fix", "guarantee"],
    negative := ["maybe", "eventually", "could"],
    proof := ["guarantee", "delivery", "today"] }

/-- The `"Skeptic"` entry of the `PERSONAS` table (lines 44-48). -/
def skepticProfile : Persona :=
  { positive := ["reviews", "trusted", "refund", "returns", "policy"],
    negative := ["miracle", "hype"],
    proof := ["reviews", "refund", "returns"] }

/-- The `"Optimizer"` entry of the `PERSONAS` table (lines 49-53). -/
def optimizerProfile : Persona :=
  { positive := ["results", "performance", "optimize", "data", "compare"],
    negative := ["generic"],
    proof := ["data", "study", "results"] }

/-- The `"Explorer"` entry of the `PERSONAS` table (lines 54-58). -/
def explorerProfile : Persona :=
  { positive := ["discover", "story", "learn", "why"],
    negative := [],
    proof := ["community", "story"] }

/-- The `"DealMax"` entry of the `PERSONAS` table (lines 59-63). -/
def dealmaxProfile : Persona :=
  { positive := ["save", "deal", "bundle", "discount", "off"],
    negative := [],
    proof := ["save", "deal", "bundle"] }

/-- Embedding of the `PERSONAS` table (lines 38-64 of `main.py`), in
insertion order. -/
def PERSONAS : List (String × Persona) :=
  [("Fixer", fixerProfile),
   ("Skeptic", skepticProfile),
   ("Optimizer", optimizerProfile),
   ("Explorer", explorerProfile),
   ("DealMax", dealmaxProfile)]

/-- The pairwise-disjointness property of the three word lists of a
persona profile. -/
def listsDisjoint (p : Persona) : Prop :=
  (∀ w ∈ p.positive, w ∉ p.negative) ∧ (∀ w ∈ p.positive, w ∉ p.proof) ∧
    (∀ w ∈ p.negative, w ∉ p.proof)

/-- Embedding of the `RECOMMENDATIONS` table (lines 66-95 of
`main.py`) as an association list of association lists, in insertion
order. -/
def RECOMMENDATIONS : List (String × List (String × String)) :=
  [("Fixer",
    [("overall_low", "Add a clear above-the-fold headline stating the problem you solve immediately."),
     ("missing_proof", "Add delivery time or a guarantee near the primary CTA."),
     ("weak_language", "Use urgency language like \x27Get it today\x27 or \x27Fast results\x27."),
     ("conflicting_language", "Remove uncertain language like \x27may help\x27 or \x27eventually\x27.")]),
   ("Skeptic",
    [("overall_low", "Increase visible trust signals above the fold."),
     ("missing_proof", "Move reviews, return policy, or trust badges closer to the CTA."),
     ("weak_language", "Add reassurance copy such as \x27verified buyers\x27 or \x27risk-free\x27."),
     ("conflicting_language", "Remove exaggerated or hype-driven claims.")]),
   ("Optimizer",
    [("overall_low", "Clarify how this product performs better than alternatives."),
     ("missing_proof", "Add comparison tables or data-backed claims."),
     ("weak_language", "Use outcome-driven language like \x27improves performance\x27."),
     ("conflicting_language", "Reduce generic marketing language.")]),
   ("Explorer",
    [("overall_low", "Add storytelling or brand narrative elements."),
     ("missing_proof", "Include lifestyle imagery or community usage examples."),
     ("weak_language", "Use curiosity-driven language like \x27discover why\x27.")]),
   ("DealMax",
    [("overall_low", "Introduce visible savings such as bundles or discounts."),
     ("missing_proof", "Show price comparisons or savings badges."),
     ("weak_language", "Use deal language like \x27Save more\x27 or \x27Limited-time offer\x27.")])]

/-- Embedding of the suggestion-building loop (lines 198-202 of
`main.py`): if the persona is a key of `RECOMMENDATIONS`, walk the
issue list and append the mapped suggestion of every issue that has an
entry; otherwise the suggestion list stays empty. -/
def suggestionsFor (pname : String) (issues : List String) : List String :=
  match RECOMMENDATIONS.lookup pname with
  | none => []
  | some tbl =>
    issues.foldl (fun acc issue =>
      match tbl.lookup issue with
      | some s => acc ++ [s]
      | none => acc) []

/-- Per-persona block of a page result (lines 204-209 of `main.py`). -/
structure PersonaScore where
  score : Int
  priority : String
  issues : List String
  suggestions : List String
deriving DecidableEq

/-- Assembly of one persona entry of `page_info["personas"]`
(lines 195-209 of `main.py`). -/
def personaResult (text : String) (pname : String) (persona : Persona) : PersonaScore :=
  let s := score_persona text persona
  let issues := diagnose s.score s.positive_hits s.negative_hits s.proof_hits
  { score := s.score,
    priority := priority s.score,
    issues := issues,
    suggestions := suggestionsFor pname issues }

/-- One `page_info` dictionary, i.e. one entry of the returned
`PageResult` list. -/
structure PageResult where
  url : String
  page_type : String
  personas : List (String × PersonaScore)
deriving DecidableEq

/-- Assembly of `page_info` (lines 189-209 of `main.py`) from the URL
and the cleaned page text. -/
def pageInfoOf (url text : String) : PageResult :=
  { url := url,
    page_type := detect_page_type url,
    personas := PERSONAS.map (fun np => (np.1, personaResult text np.1 np.2)) }

/-- Scanning loop of Python `str.replace(pat, "")` in the structural
style of `pyCntSkip`: every non-overlapping occurrence of `pat`,
found scanning left to right, is deleted. -/
def pyRemoveSkip : List Char → List Char → Nat → List Char
  | [], _, _ => []
  | c :: rest, pat, 0 =>
    if pat.isPrefixOf (c :: rest) then pyRemoveSkip rest pat (pat.length - 1)
    else c :: pyRemoveSkip rest pat 0
  | _ :: rest, pat, k + 1 => pyRemoveSkip rest pat k

/-- Embedding of `netloc.replace("www.", "")` (lines 167 and 218 of
`main.py`): Python `str.replace` deletes every occurrence of the
substring `www.`, wherever it occurs, scanning left to right. -/
def stripWWW (s : String) : String :=
  ⟨pyRemoveSkip s.data "www.".data 0⟩

/-- Host strip as worded by the specification: remove a `www.` prefix
only when it stands at the very front of the host.  This definition
follows the words of the spec, for comparison against the `stripWWW`
behaviour of the source; it is not code of `main.py`. -/
def stripLeadingWWW (s : String) : String :=
  if "www.".data.isPrefixOf s.data then ⟨s.data.drop 4⟩ else s

/-- The domain test of line 220 of `main.py`, applied to the already
stripped link host: accept when it is empty or equals the (already
stripped) crawl base domain. -/
def domainOk (base_domain link_domain : String) : Bool :=
  link_domain == "" || link_domain == base_domain

/-- Acceptance decision of the link filter on raw hosts, as composed
by lines 166-167 and 217-220 of `main.py`: both hosts go through the
`replace("www.", "")` strip. -/
def acceptHost (base_host link_host : String) : Bool :=
  domainOk (stripWWW base_host) (stripWWW link_host)

/-- Acceptance decision as worded by the specification: both hosts
stripped of a leading `www.` prefix only.  Spec-side definition for
comparison, not code of `main.py`. -/
def acceptHostLeading (base_host link_host : String) : Bool :=
  stripLeadingWWW link_host == "" || stripLeadingWWW link_host == stripLeadingWWW base_host

/-- Response of one `requests.get` call, as used by `run_crawl`. -/
structure Resp where
  status_code : Nat
  text : String
deriving DecidableEq

/-- Oracle bundle for the external library capabilities `run_crawl`
calls into: `fetch` models `requests.get` (`none` is a raised network
or timeout exception), `get_text` models the BeautifulSoup part of
`clean_text` (parse, decompose script/style/noscript, join text nodes
with spaces), `hrefsOf` models `soup.find_all("a", href=True)` (the
href attribute values of a page body), `urljoin` and `netloc` model
`urllib.parse.urljoin` and `urlparse(...).netloc`. -/
structure Env where
  fetch : String → Option Resp
  get_text : String → String
  hrefsOf : String → List String
  urljoin : String → String → String
  netloc : String → String

/-- State of the crawl loop of `run_crawl` (lines 169-171 of
`main.py`).  `visited` is a Python set of which only membership and
size are used; it is represented as the list of its elements in
insertion order (a URL is added only when absent, so no duplicates
arise). -/
structure CrawlState where
  queue : List String
  visited : List String
  pages : List PageResult
deriving DecidableEq

/-- Link discovery for one fetched page (lines 214-220 of `main.py`):
resolve every anchor target against the page URL, then keep the links
whose `www.`-stripped host passes the domain test. -/
def discovered (env : Env) (base_domain url body : String) : List String :=
  ((env.hrefsOf body).map (env.urljoin url)).filter (fun link =>
    domainOk base_domain (stripWWW (env.netloc link)))

/-- Successful-fetch body of the crawl loop (lines 185-222 of
`main.py`): mark the URL visited, score the cleaned text, append the
page result, and enqueue every discovered link that is not in the
(just updated) visited set. -/
def processPage (env : Env) (base_domain url : String) (rest : List String)
    (s : CrawlState) (resp : Resp) : CrawlState :=
  { queue := rest ++ (discovered env base_domain url resp.text).filter
      (fun l => decide (l ∉ url :: s.visited)),
    visited := url :: s.visited,
    pages := s.pages ++ [pageInfoOf url (clean_text env.get_text resp.text)] }

/-- One iteration of the `while` loop of `run_crawl` (lines 173-222 of
`main.py`).  `none` means the loop exits: the frontier is empty or the
visited budget is exhausted.  Otherwise the head URL is dequeued and
either skipped (already visited, fetch raised, or non-200 status) or
processed. -/
def crawlStep (env : Env) (max_pages : Nat) (base_domain : String)
    (s : CrawlState) : Option CrawlState :=
  match s.queue with
  | [] => none
  | url :: rest =>
    if s.visited.length < max_pages then
      if url ∈ s.visited then some { s with queue := rest }
      else
        match env.fetch url with
        | none => some { s with queue := rest }
        | some resp =>
          if resp.status_code = 200 then some (processPage env base_domain url rest s resp)
          else some { s with queue := rest }
    else none

/-- The `while` loop of `run_crawl`, driven by `crawlStep`; it returns
the accumulated page list of the final state.  Termination: each
iteration either consumes visited budget or shortens the frontier. -/
def crawlLoop (env : Env) (max_pages : Nat) (base_domain : String)
    (s : CrawlState) : List PageResult :=
  match h : crawlStep env max_pages base_domain s with
  | none => s.pages
  | some s' => crawlLoop env max_pages base_domain s'
termination_by (max_pages - s.visited.length, s.queue.length)
decreasing_by
  rcases s with ⟨queue, visited, pages⟩
  rcases queue with _ | ⟨url, rest⟩
  · simp [crawlStep] at h
  · by_cases hlt : visited.length < max_pages
    · by_cases hmem : url ∈ visited
      · simp [crawlStep, hlt, hmem] at h
        subst h
        exact Prod.Lex.right _ (by simp)
      · cases hf : env.fetch url
        · simp [crawlStep, hlt, hmem, hf] at h
          subst h
          exact Prod.Lex.right _ (by simp)
        · rename_i resp
          by_cases hst : resp.status_code = 200
          · simp [crawlStep, hlt, hmem, hf, hst] at h
            subst h
            exact Prod.Lex.left _ _ (by simp [processPage]; omega)
          · simp [crawlStep, hlt, hmem, hf, hst] at h
            subst h
            exact Prod.Lex.right _ (by simp)
    · simp [crawlStep, hlt] at h

/-- Embedding of `run_crawl` (lines 165-224 of `main.py`): compute the
base domain from the start URL, start with a one-element frontier, an
empty visited set and an empty page list, and run the loop. -/
def run_crawl (env : Env) (start_url : String) (max_pages : Nat) : List PageResult :=
  crawlLoop env max_pages (stripWWW (env.netloc start_url))
    { queue := [start_url], visited := [], pages := [] }

/-- Reachability along crawl loop iterations. -/
def Reach (env : Env) (mp : Nat) (bd : String) : CrawlState → CrawlState → Prop :=
  Relation.ReflTransGen (fun a b => crawlStep env mp bd a = some b)

/-- Condition under which one loop iteration reaches the
`requests.get` call of line 179: the head of the frontier is `u`, `u`
is unvisited, and the budget is live. -/
def fetchAttempt (mp : Nat) (s : CrawlState) (u : String) : Prop :=
  s.queue.head? = some u ∧ u ∉ s.visited ∧ s.visited.length < mp

/-- Scheme of a URL: the characters before the first colon (model of
`urllib.parse` behaviour on absolute http/https URLs). -/
def schemeOf (u : String) : String :=
  ⟨u.data.takeWhile (fun c => c ≠ ':')⟩

/-- Suffix after the first `//` of a URL, if any. -/
def afterDoubleSlash : List Char → Option (List Char)
  | [] => none
  | c :: rest =>
    if ['/', '/'].isPrefixOf (c :: rest) then some rest.tail
    else afterDoubleSlash rest

/-- Model of `urlparse(u).netloc` on absolute http/https URLs and
protocol-relative references: the authority component between the
first `//` and the next `/`, `?` or `#`; empty when the URL has no
`//` (relative references). -/
def modelNetloc (u : String) : String :=
  match afterDoubleSlash u.data with
  | none => ""
  | some r => ⟨r.takeWhile (fun c => c ≠ '/' && c ≠ '?' && c ≠ '#')⟩

/-- Model of `urljoin(base, target)` on the reference forms exercised
here: absolute URLs are kept, protocol-relative references inherit the
scheme of the base, and plain relative paths replace the last segment
of the base. -/
def modelUrljoin (base target : String) : String :=
  if containsSub target.data "://".data then target
  else if ['/', '/'].isPrefixOf target.data then ⟨(schemeOf base).data ++ ':' :: target.data⟩
  else ⟨(base.data.reverse.dropWhile (fun c => c ≠ '/')).reverse ++ target.data⟩

/-- A fixed successful response used by the budget demonstration. -/
def demoResp : Resp :=
  { status_code := 200, text := "page" }

/-- Demonstration site for the crawl budget: every fetch succeeds with
status 200 and every page links to ten other same-domain pages. -/
def demoEnv : Env :=
  { fetch := fun _ => some demoResp,
    get_text := fun _ => "",
    hrefsOf := fun _ => ["l0", "l1", "l2", "l3", "l4", "l5", "l6", "l7", "l8", "l9"],
    urljoin := fun _ href => href,
    netloc := fun _ => "" }

/-- Demonstration site for the link filter: one page whose only anchor
target has host `www.www.example.com`. -/
def c4Env : Env :=
  { fetch := fun _ => none,
    get_text := fun _ => "",
    hrefsOf := fun _ => ["http://www.www.example.com/x"],
    urljoin := modelUrljoin,
    netloc := modelNetloc }

/-- Demonstration site for re-fetching a failed URL: page `a` (an
empty-text page) links twice to `b`, and every fetch of `b` fails. -/
def env5 : Env :=
  { fetch := fun u => if u = "a" then some { status_code := 200, text := "A" } else none,
    get_text := fun _ => "",
    hrefsOf := fun body => if body = "A" then ["b", "b"] else [],
    urljoin := fun _ href => href,
    netloc := fun _ => "" }

/-- Page result of page `a` of the demonstration sites (its cleaned
text is empty). -/
def emptyTextPage : PageResult :=
  pageInfoOf "a" ""

/-- Initial crawl state on start URL `a`. -/
def startStateA : CrawlState :=
  { queue := ["a"], visited := [], pages := [] }

/-- State after processing page `a` of `env5`: both copies of `b` are
enqueued. -/
def c5s1 : CrawlState :=
  { queue := ["b", "b"], visited := ["a"], pages := [emptyTextPage] }

/-- State after the first failed fetch of `b`: the second copy of `b`
is still in the frontier and `b` is not in the visited set. -/
def c5s2 : CrawlState :=
  { queue := ["b"], visited := ["a"], pages := [emptyTextPage] }

/-- Demonstration site for enqueue-time filtering: page `a` links only
to itself. -/
def env6 : Env :=
  { fetch := fun u => if u = "a" then some { status_code := 200, text := "A" } else none,
    get_text := fun _ => "",
    hrefsOf := fun body => if body = "A" then ["a"] else [],
    urljoin := fun _ href => href,
    netloc := fun _ => "" }

/-- State after processing page `a` of `env6`: the discovered link `a`
is already visited, so the frontier stays empty. -/
def c6s1 : CrawlState :=
  { queue := [], visited := ["a"], pages := [emptyTextPage] }

/-- Demonstration site on which every fetch raises. -/
def envFail : Env :=
  { fetch := fun _ => none,
    get_text := fun _ => "",
    hrefsOf := fun _ => [],
    urljoin := fun _ href => href,
    netloc := fun _ => "" }

/-- The two formulations of the greedy scan agree: skipping `k`
characters one at a time is dropping them wholesale. -/
theorem pyCntSkip_eq_aux : ∀ (t w : List Char) (k : Nat), pyCntSkip t w k = pyCountAux (t.drop k) w
  | [], w, k => by simp [pyCntSkip, pyCountAux]
  | c :: rest, w, 0 => by
    rw [pyCntSkip, List.drop_zero, pyCountAux, pyCntSkip_eq_aux rest w (w.length - 1),
      pyCntSkip_eq_aux rest w 0, List.drop_zero]
  | c :: rest, w, k + 1 => by
    rw [pyCntSkip, List.drop_succ_cons, pyCntSkip_eq_aux rest w k]

/-- Evaluation-free characterization of `pyCount` through the
proof-friendly scan. -/
theorem pyCount_eq (t w : List Char) :
    pyCount t w = if w.isEmpty then t.length + 1 else pyCountAux t w := by
  rw [pyCount, pyCntSkip_eq_aux, List.drop_zero]

/-- Unfolding equation of `crawlLoop` when the loop exits. -/
theorem crawlLoop_none {env : Env} {mp : Nat} {bd : String} {s : CrawlState}
    (h : crawlStep env mp bd s = none) : crawlLoop env mp bd s = s.pages := by
  rw [crawlLoop]
  split
  · rfl
  · rename_i s' h'
    rw [h] at h'
    cases h'

/-- Unfolding equation of `crawlLoop` when the loop takes a step. -/
theorem crawlLoop_some {env : Env} {mp : Nat} {bd : String} {s s' : CrawlState}
    (h : crawlStep env mp bd s = some s') :
    crawlLoop env mp bd s = crawlLoop env mp bd s' := by
  rw [crawlLoop]
  split
  · rename_i h'
    rw [h] at h'
    cases h'
  · rename_i t h'
    rw [h] at h'
    cases h'
    rfl

/-- Case analysis of a successful loop iteration: the head URL is
dequeued under a live budget, and the state either just drops it
(already visited, fetch exception, or non-200 status) or processes the
page. -/
theorem crawlStep_inv {env : Env} {mp : Nat} {bd : String} {s s' : CrawlState}
    (h : crawlStep env mp bd s = some s') :
    ∃ url rest, s.queue = url :: rest ∧ s.visited.length < mp ∧
      ((s' = { s with queue := rest } ∧
        (url ∈ s.visited ∨ env.fetch url = none ∨
          ∃ resp, env.fetch url = some resp ∧ resp.status_code ≠ 200)) ∨
       (∃ resp, env.fetch url = some resp ∧ resp.status_code = 200 ∧
        url ∉ s.visited ∧ s' = processPage env bd url rest s resp)) := by
  rcases s with ⟨queue, visited, pages⟩
  rcases queue with _ | ⟨url, rest⟩
  · simp [crawlStep] at h
  · refine ⟨url, rest, rfl, ?_, ?_⟩
    · by_contra hlt
      simp [crawlStep, hlt] at h
    · by_cases hlt : visited.length < mp
      · by_cases hmem : url ∈ visited
        · simp [crawlStep, hlt, hmem] at h
          exact Or.inl ⟨h.symm, Or.inl hmem⟩
        · cases hf : env.fetch url
          · simp [crawlStep, hlt, hmem, hf] at h
            exact Or.inl ⟨h.symm, Or.inr (Or.inl rfl)⟩
          · rename_i resp
            by_cases hst : resp.status_code = 200
            · simp [crawlStep, hlt, hmem, hf, hst] at h
              exact Or.inr ⟨resp, rfl, hst, hmem, h.symm⟩
            · simp [crawlStep, hlt, hmem, hf, hst] at h
              exact Or.inl ⟨h.symm, Or.inr (Or.inr ⟨resp, rfl, hst⟩)⟩
      · simp [crawlStep, hlt] at h

/-- One loop iteration never pushes the visited set beyond the page
budget: it grows only under the `len(visited) < max_pages` guard. -/
theorem crawlStep_visited_le {env : Env} {mp : Nat} {bd : String} {s s' : CrawlState}
    (h : crawlStep env mp bd s = some s') (hv : s.visited.length ≤ mp) :
    s'.visited.length ≤ mp := by
  obtain ⟨url, rest, hq, hlt, hcase⟩ := crawlStep_inv h
  rcases hcase with ⟨rfl, -⟩ | ⟨resp, -, -, -, rfl⟩
  · simpa using hv
  · simp [processPage]
    omega

/-- Along any run of the crawl loop the visited set stays within the
budget. -/
theorem reach_visited_le {env : Env} {mp : Nat} {bd : String} {s s' : CrawlState}
    (h : Reach env mp bd s s') (hv : s.visited.length ≤ mp) :
    s'.visited.length ≤ mp := by
  induction h with
  | refl => exact hv
  | tail _ hstep ih => exact crawlStep_visited_le hstep ih

/-- The loop refuses to take a step exactly when the frontier is empty
or the visited budget is exhausted (the `while` condition of line 173
of `main.py`). -/
theorem crawlStep_none_iff (env : Env) (mp : Nat) (bd : String) (s : CrawlState) :
    crawlStep env mp bd s = none ↔ (s.queue = [] ∨ mp ≤ s.visited.length) := by
  rcases s with ⟨queue, visited, pages⟩
  rcases queue with _ | ⟨url, rest⟩
  · simp [crawlStep]
  · by_cases hlt : visited.length < mp
    · by_cases hmem : url ∈ visited
      · simp [crawlStep, hlt, hmem]
      · cases hf : env.fetch url
        · simp [crawlStep, hlt, hmem, hf]
        · rename_i resp
          by_cases hst : resp.status_code = 200
          · simp [crawlStep, hlt, hmem, hf, hst]
          · simp [crawlStep, hlt, hmem, hf, hst]
    · simp [crawlStep, hlt]
      omega

/-- Main budget lemma: when every fetch succeeds with status 200 and
every fetched page offers strictly more than `mp` distinct accepted
links, the loop ends with exactly `mp` visited pages, one page result
each. -/
theorem crawlLoop_budget (env : Env) (mp : Nat) (bd : String)
    (hf : ∀ u, ∃ r, env.fetch u = some r ∧ r.status_code = 200)
    (hl : ∀ u r, env.fetch u = some r → mp < (discovered env bd u r.text).dedup.length) :
    ∀ s : CrawlState, s.visited.Nodup → s.visited.length ≤ mp →
      ((∃ u ∈ s.queue, u ∉ s.visited) ∨ s.visited.length = mp) →
      (crawlLoop env mp bd s).length = s.pages.length + (mp - s.visited.length) := by
  intro s
  induction s using crawlLoop.induct env mp bd with
  | case1 s hnone =>
    intro hnd hle hdis
    rw [crawlLoop_none hnone]
    rcases (crawlStep_none_iff env mp bd s).mp hnone with hq | hge
    · rcases hdis with ⟨u, hu, -⟩ | heq
      · rw [hq] at hu
        cases hu
      · omega
    · omega
  | case2 s s' hstep ih =>
    intro hnd hle hdis
    rw [crawlLoop_some hstep]
    obtain ⟨url, rest, hq, hlt, hcase⟩ := crawlStep_inv hstep
    rcases hcase with ⟨rfl, hskip⟩ | ⟨resp, hresp, hst, hmem, rfl⟩
    · rcases hskip with hmem | hfail | ⟨resp, hresp, hst⟩
      · have hform := ih hnd (by simpa using hle) ?_
        · simpa using hform
        · rcases hdis with ⟨u, hu, hnv⟩ | heq
          · rw [hq] at hu
            rcases List.mem_cons.mp hu with rfl | hu'
            · exact absurd hmem hnv
            · exact Or.inl ⟨u, by simpa using hu', hnv⟩
          · omega
      · obtain ⟨r, hr, -⟩ := hf url
        rw [hfail] at hr
        cases hr
      · obtain ⟨r, hr, hr200⟩ := hf url
        rw [hresp] at hr
        cases hr
        exact absurd hr200 hst
    · have hnd' : (url :: s.visited).Nodup := List.nodup_cons.mpr ⟨hmem, hnd⟩
      have hle' : (url :: s.visited).length ≤ mp := by
        simp only [List.length_cons]
        omega
      have hdis' : (∃ u ∈ (processPage env bd url rest s resp).queue,
          u ∉ (processPage env bd url rest s resp).visited) ∨
          (processPage env bd url rest s resp).visited.length = mp := by
        by_cases hfull : (url :: s.visited).length = mp
        · exact Or.inr (by simpa [processPage] using hfull)
        · refine Or.inl ?_
          have hex : ∃ x ∈ discovered env bd url resp.text, x ∉ url :: s.visited := by
            by_contra hall
            push_neg at hall
            have hsub : (discovered env bd url resp.text).dedup ⊆ url :: s.visited := by
              intro x hx
              exact hall x (List.mem_dedup.mp hx)
            have hlen := (List.subperm_of_subset (List.nodup_dedup _) hsub).length_le
            have hd := hl url resp hresp
            simp only [List.length_cons] at hlen
            omega
          obtain ⟨x, hx, hxv⟩ := hex
          refine ⟨x, ?_, ?_⟩
          · simp only [processPage, List.mem_append]
            exact Or.inr (List.mem_filter.mpr ⟨hx, by simpa using hxv⟩)
          · simpa [processPage] using hxv
      have hform := ih hnd' hle' hdis'
      have h1 : (processPage env bd url rest s resp).pages.length = s.pages.length + 1 := by
        simp [processPage]
      have h2 : (processPage env bd url rest s resp).visited.length = s.visited.length + 1 := by
        simp [processPage]
      rw [hform, h1, h2]
      omega

/-- Every page result produced by the loop either was already in the
accumulator or is the page result of a URL whose fetch succeeded with
status 200. -/
theorem crawlLoop_pages_sub (env : Env) (mp : Nat) (bd : String) :
    ∀ s : CrawlState, ∀ pr ∈ crawlLoop env mp bd s,
      pr ∈ s.pages ∨ ∃ u resp, env.fetch u = some resp ∧ resp.status_code = 200 ∧
        pr = pageInfoOf u (clean_text env.get_text resp.text) := by
  intro s
  induction s using crawlLoop.induct env mp bd with
  | case1 s hnone =>
    intro pr hpr
    rw [crawlLoop_none hnone] at hpr
    exact Or.inl hpr
  | case2 s s' hstep ih =>
    intro pr hpr
    rw [crawlLoop_some hstep] at hpr
    rcases ih pr hpr with hmem | hex
    · obtain ⟨url, rest, hq, hlt, hcase⟩ := crawlStep_inv hstep
      rcases hcase with ⟨rfl, -⟩ | ⟨resp, hresp, hst, hmem2, rfl⟩
      · exact Or.inl (by simpa using hmem)
      · rcases (by simpa [processPage] using hmem :
            pr ∈ s.pages ∨ pr = pageInfoOf url (clean_text env.get_text resp.text)) with h1 | h2
        · exact Or.inl h1
        · exact Or.inr ⟨url, resp, hresp, hst, h2⟩
    · exact Or.inr hex

/-- A fold that conditionally appends table hits is a filterMap over
the table lookup. -/
theorem foldl_append_filterMap (tbl : List (String × String)) :
    ∀ (issues : List String) (acc : List String),
      issues.foldl (fun acc issue =>
          match tbl.lookup issue with
          | some s => acc ++ [s]
          | none => acc) acc =
        acc ++ issues.filterMap (fun issue => tbl.lookup issue)
  | [], acc => by simp
  | i :: is, acc => by
    cases hf : tbl.lookup i <;>
      simp [List.filterMap_cons, hf, foldl_append_filterMap tbl is]

/-- C1: on a site with more reachable same-domain pages than the
budget where all fetches succeed (every fetched page offers more than
`max_pages` distinct accepted links), `run_crawl` returns exactly
`max_pages` page results; moreover, along any run from the initial
state the visited set never exceeds `max_pages`, and the loop refuses
to take a step exactly when the frontier is empty or
`len(visited) >= max_pages`. -/
theorem claim1_crawl_budget (env : Env) (start_url : String) (max_pages : Nat)
    (hf : ∀ u, ∃ r, env.fetch u = some r ∧ r.status_code = 200)
    (hl : ∀ u r, env.fetch u = some r →
      max_pages < (discovered env (stripWWW (env.netloc start_url)) u r.text).dedup.length) :
    (run_crawl env start_url max_pages).length = max_pages ∧
    (∀ s, Reach env max_pages (stripWWW (env.netloc start_url))
        { queue := [start_url], visited := [], pages := [] } s →
      s.visited.length ≤ max_pages) ∧
    (∀ s, crawlStep env max_pages (stripWWW (env.netloc start_url)) s = none ↔
      (s.queue = [] ∨ max_pages ≤ s.visited.length)) := by
  refine ⟨?_, ?_, ?_⟩
  · have hdis : (∃ u ∈ ({ queue := [start_url], visited := [], pages := [] } : CrawlState).queue,
        u ∉ ({ queue := [start_url], visited := [], pages := [] } : CrawlState).visited) ∨
        ({ queue := [start_url], visited := [], pages := [] } : CrawlState).visited.length = max_pages := by
      rcases Nat.eq_zero_or_pos max_pages with h0 | hpos
      · exact Or.inr (by simp [h0])
      · exact Or.inl ⟨start_url, by simp, by simp⟩
    have hb := crawlLoop_budget env max_pages (stripWWW (env.netloc start_url)) hf hl
      { queue := [start_url], visited := [], pages := [] } (by simp) (by simp) hdis
    simpa [run_crawl] using hb
  · intro s hs
    exact reach_visited_le hs (by simp)
  · intro s
    exact crawlStep_none_iff env max_pages (stripWWW (env.netloc start_url)) s

/-- C1 witness: the budget theorem applied to the demonstration site
(`max_pages = 3`, every page fetches with status 200 and links to ten
same-domain pages) yields exactly three page results. -/
theorem claim1_crawl_budget_witness :
    (run_crawl demoEnv "https://example.com/" 3).length = 3 :=
  (claim1_crawl_budget demoEnv "https://example.com/" 3
    (fun _ => ⟨demoResp, rfl, rfl⟩)
    (fun u r hr => by
      obtain rfl := Option.some.inj hr
      have hdisc : discovered demoEnv (stripWWW (demoEnv.netloc "https://example.com/")) u
          demoResp.text = ["l0", "l1", "l2", "l3", "l4", "l5", "l6", "l7", "l8", "l9"] := rfl
      rw [hdisc]
      decide)).1

/-- C3: `score_persona` clamps the raw weighted score
`positive_hits*3 + proof_hits*5 - negative_hits*4` into the interval
[0, 100], and the returned score always lies within both bounds. -/
theorem claim3_score_clamped (text : String) (persona : Persona) :
    (score_persona text persona).score =
      max 0 (min 100 (((score_persona text persona).positive_hits : Int) * 3 +
        ((score_persona text persona).proof_hits : Int) * 5 -
        ((score_persona text persona).negative_hits : Int) * 4)) ∧
    0 ≤ (score_persona text persona).score ∧
    (score_persona text persona).score ≤ 100 := by
  refine ⟨rfl, le_max_left _ _, ?_⟩
  exact max_le (by norm_num) (min_le_left _ _)

/-- C4 counterexample: the crawl accepts a link whose host is
`www.www.example.com` against base domain `example.com` (because
`replace("www.", "")` deletes every occurrence of `www.`), while the
strip-only-a-leading-`www.`-prefix rule stated by the claim rejects
it.  So the filter does not strip only a leading prefix. -/
theorem claim4_leading_strip_counterexample :
    "http://www.www.example.com/x" ∈
      discovered c4Env "example.com" "http://example.com/" "body" ∧
    acceptHost "example.com" "www.www.example.com" = true ∧
    acceptHostLeading "example.com" "www.www.example.com" = false := by
  refine ⟨?_, by decide, by decide⟩
  decide

/-- C4 (amended): link filtering strips every occurrence of the
substring `www.` from the discovered host and from the base host
(Python `replace`; this coincides with stripping a leading prefix
whenever `www.` occurs only there), and accepts a link exactly when
the stripped host is empty or equals the stripped base host.  With
base `https://www.example.com/a`, the target `//www.example.com/b` is
accepted and `https://other.com/c` is rejected. -/
theorem claim4_link_filter_amended :
    (∀ env bd url body link,
      link ∈ discovered env bd url body ↔
        link ∈ (env.hrefsOf body).map (env.urljoin url) ∧
          domainOk bd (stripWWW (env.netloc link)) = true) ∧
    modelUrljoin "https://www.example.com/a" "//www.example.com/b" = "https://www.example.com/b" ∧
    acceptHost "www.example.com"
      (modelNetloc (modelUrljoin "https://www.example.com/a" "//www.example.com/b")) = true ∧
    acceptHost "www.example.com"
      (modelNetloc (modelUrljoin "https://www.example.com/a" "https://other.com/c")) = false := by
  refine ⟨?_, by decide, by decide, by decide⟩
  intro env bd url body link
  simp [discovered, List.mem_filter]

/-- C5 counterexample: in the `env5` crawl started at `a`, the URL `b`
fails to fetch at state `c5s1` (the fetch is attempted and the step
discards `b`), yet at the successor state `c5s2` the second queued
copy of `b` is dequeued and fetched again.  A fetch-failed URL can
hence be fetched again in the same crawl. -/
theorem claim5_failed_refetch_counterexample :
    env5.fetch "b" = none ∧
    crawlStep env5 5 "" startStateA = some c5s1 ∧
    crawlStep env5 5 "" c5s1 = some c5s2 ∧
    fetchAttempt 5 c5s1 "b" ∧
    fetchAttempt 5 c5s2 "b" ∧
    Reach env5 5 "" startStateA c5s1 := by
  refine ⟨rfl, ?_, ?_, ?_, ?_, ?_⟩
  · decide
  · decide
  · refine ⟨rfl, by decide, by decide⟩
  · refine ⟨rfl, by decide, by decide⟩
  · exact Relation.ReflTransGen.single (by decide)

/-- C5 (amended): a URL whose fetch fails (exception or non-200
status) is simply discarded: the step drops it from the frontier and
leaves the visited set and the page list unchanged.  In particular it
is not marked visited, so it is fetched again exactly when another
copy of it is dequeued later (already-queued duplicate or
re-discovery), which the code does not prevent. -/
theorem claim5_fetch_failure_skips (env : Env) (mp : Nat) (bd : String)
    (s : CrawlState) (url : String) (rest : List String)
    (hq : s.queue = url :: rest) (hmem : url ∉ s.visited) (hlt : s.visited.length < mp)
    (hfail : env.fetch url = none ∨ ∃ r, env.fetch url = some r ∧ r.status_code ≠ 200) :
    crawlStep env mp bd s = some { s with queue := rest } := by
  rcases s with ⟨q, v, p⟩
  simp only at hq hmem hlt
  subst hq
  rcases hfail with hnone | ⟨r, hr, hst⟩
  · simp [crawlStep, hlt, hmem, hnone]
  · simp [crawlStep, hlt, hmem, hr, hst]

/-- C5 witness: the failure-skip step applied to the second fetch
attempt of `b` in the demonstration crawl. -/
theorem claim5_fetch_failure_skips_witness :
    crawlStep env5 5 "" c5s1 = some { c5s1 with queue := ["b"] } :=
  claim5_fetch_failure_skips env5 5 "" c5s1 "b" ["b"] rfl (by decide) (by decide) (Or.inl rfl)

/-- C6 counterexample: in the `env6` crawl, page `a` discovers the
link `a`, which is already in the visited set of the updated state,
and the resulting frontier is empty: the discovered link was dropped
at enqueue time, so enqueueing is not unconditional. -/
theorem claim6_unconditional_enqueue_counterexample :
    crawlStep env6 5 "" startStateA = some c6s1 ∧
    discovered env6 "" "a" "A" = ["a"] ∧
    "a" ∈ c6s1.visited ∧
    c6s1.queue = [] := by
  refine ⟨?_, by decide, by decide, rfl⟩
  decide

/-- C6 (amended): after a successfully processed page the engine
enqueues exactly the discovered same-domain links that are not in the
visited set at enqueue time (the set already containing the current
URL); a second, dequeue-time visited check additionally discards
queued duplicates. -/
theorem claim6_enqueue_filtered :
    (∀ (env : Env) (mp : Nat) (bd : String) (s : CrawlState) url rest resp,
      s.queue = url :: rest → s.visited.length < mp → url ∉ s.visited →
      env.fetch url = some resp → resp.status_code = 200 →
      crawlStep env mp bd s = some (processPage env bd url rest s resp) ∧
      (processPage env bd url rest s resp).queue =
        rest ++ (discovered env bd url resp.text).filter (fun l => decide (l ∉ url :: s.visited))) ∧
    (∀ (env : Env) (mp : Nat) (bd : String) (s : CrawlState) url rest,
      s.queue = url :: rest → s.visited.length < mp → url ∈ s.visited →
      crawlStep env mp bd s = some { s with queue := rest }) := by
  constructor
  · intro env mp bd s url rest resp hq hlt hmem hfetch hst
    rcases s with ⟨q, v, p⟩
    simp only at hq hmem hlt
    subst hq
    exact ⟨by simp [crawlStep, hlt, hmem, hfetch, hst], rfl⟩
  · intro env mp bd s url rest hq hlt hmem
    rcases s with ⟨q, v, p⟩
    simp only at hq hmem hlt
    subst hq
    simp [crawlStep, hlt, hmem]

/-- C6 witness: the enqueue-filter step applied to the self-linking
demonstration page, where the discovered link is dropped because it is
already visited. -/
theorem claim6_enqueue_filtered_witness :
    crawlStep env6 5 "" startStateA =
      some (processPage env6 "" "a" [] startStateA { status_code := 200, text := "A" }) :=
  (claim6_enqueue_filtered.1 env6 5 "" startStateA "a" [] { status_code := 200, text := "A" }
    rfl (by decide) (by decide) rfl rfl).1

/-- C7 counterexample: the word `guarantee` belongs to both the
`positive` and the `proof` list of the `Fixer` persona, so the three
word lists of that configured persona are not pairwise disjoint. -/
theorem claim7_disjoint_counterexample :
    ("Fixer", fixerProfile) ∈ PERSONAS ∧
    "guarantee" ∈ fixerProfile.positive ∧
    "guarantee" ∈ fixerProfile.proof ∧
    ¬ listsDisjoint fixerProfile := by
  refine ⟨by decide, by decide, by decide, ?_⟩
  intro h
  exact absurd (by decide : "guarantee" ∈ fixerProfile.proof) (h.2.1 "guarantee" (by decide))

/-- C7 (amended): in every configured persona the `negative` list is
disjoint from both `positive` and `proof`, but every configured
persona has at least one word lying in both `positive` and `proof`
(so the three lists are not pairwise disjoint). -/
theorem claim7_disjoint_amended :
    ∀ p ∈ PERSONAS, (∀ w ∈ p.2.positive, w ∉ p.2.negative) ∧
      (∀ w ∈ p.2.negative, w ∉ p.2.proof) ∧
      (∃ w ∈ p.2.positive, w ∈ p.2.proof) := by
  decide

/-- C7 witness: the amended disjointness facts instantiated at the
`Fixer` persona. -/
theorem claim7_disjoint_amended_witness :
    (∀ w ∈ fixerProfile.positive, w ∉ fixerProfile.negative) ∧
    (∀ w ∈ fixerProfile.negative, w ∉ fixerProfile.proof) ∧
    (∃ w ∈ fixerProfile.positive, w ∈ fixerProfile.proof) :=
  claim7_disjoint_amended ("Fixer", fixerProfile) (by decide)

/-- C8: the recommendation mapper returns, in issue-list order, one
suggestion per issue that has a table entry for the persona
(a filterMap over the issue list); issues without an entry, or a
persona absent from the table, are skipped silently, so the output can
be shorter than the issue list.  The Explorer persona has no
`conflicting_language` entry and an unknown persona yields no
suggestions. -/
theorem claim8_recommendations (pname : String) (issues : List String) :
    suggestionsFor pname issues =
      issues.filterMap (fun issue =>
        (RECOMMENDATIONS.lookup pname).bind (fun tbl => tbl.lookup issue)) ∧
    (suggestionsFor pname issues).length ≤ issues.length ∧
    (RECOMMENDATIONS.lookup pname = none → suggestionsFor pname issues = []) ∧
    suggestionsFor "Explorer" ["weak_language", "conflicting_language"] =
      ["Use curiosity-driven language like \x27discover why\x27."] ∧
    suggestionsFor "NoSuchPersona" ["overall_low"] = [] := by
  have hmain : suggestionsFor pname issues =
      issues.filterMap (fun issue =>
        (RECOMMENDATIONS.lookup pname).bind (fun tbl => tbl.lookup issue)) := by
    cases hl : RECOMMENDATIONS.lookup pname with
    | none => simp [suggestionsFor, hl]
    | some tbl =>
      have hfold : suggestionsFor pname issues =
          issues.foldl (fun acc issue =>
            match tbl.lookup issue with
            | some s => acc ++ [s]
            | none => acc) [] := by
        unfold suggestionsFor
        rw [hl]
      rw [hfold, foldl_append_filterMap tbl issues []]
      simp [hl]
  refine ⟨hmain, ?_, ?_, by decide, by decide⟩
  · rw [hmain]
    exact List.length_filterMap_le _ _
  · intro hnone
    unfold suggestionsFor
    rw [hnone]

/-- C8 witness: an unknown persona identifier is skipped silently,
yielding the empty suggestion list. -/
theorem claim8_recommendations_witness :
    suggestionsFor "NoSuchPersona" ["overall_low", "missing_proof"] = [] :=
  (claim8_recommendations "NoSuchPersona" ["overall_low", "missing_proof"]).2.2.1 (by decide)

/-- C9: no individual fetch or parse failure is fatal: every returned
page result comes from a URL whose fetch succeeded with status 200
(the crawl returns exactly the pages it successfully processed), and
when the start URL itself fails to fetch (exception or non-200
status) the crawl returns the empty page list. -/
theorem claim9_crawl_error_tolerant (env : Env) (start_url : String) (max_pages : Nat) :
    (∀ pr ∈ run_crawl env start_url max_pages,
      ∃ u resp, env.fetch u = some resp ∧ resp.status_code = 200 ∧
        pr = pageInfoOf u (clean_text env.get_text resp.text)) ∧
    ((env.fetch start_url = none ∨
      ∃ r, env.fetch start_url = some r ∧ r.status_code ≠ 200) →
      run_crawl env start_url max_pages = []) := by
  constructor
  · intro pr hpr
    rcases crawlLoop_pages_sub env max_pages (stripWWW (env.netloc start_url))
        { queue := [start_url], visited := [], pages := [] } pr hpr with h | h
    · simp at h
    · exact h
  · intro hfail
    unfold run_crawl
    by_cases hmp : 0 < max_pages
    · have hstep : crawlStep env max_pages (stripWWW (env.netloc start_url))
          { queue := [start_url], visited := [], pages := [] } =
          some { queue := [], visited := [], pages := [] } := by
        rcases hfail with hnone | ⟨r, hr, hst⟩
        · simp [crawlStep, hmp, hnone]
        · simp [crawlStep, hmp, hr, hst]
      rw [crawlLoop_some hstep, crawlLoop_none (by simp [crawlStep])]
    · have hnone : crawlStep env max_pages (stripWWW (env.netloc start_url))
          { queue := [start_url], visited := [], pages := [] } = none := by
        apply (crawlStep_none_iff _ _ _ _).mpr
        right
        simp
        omega
      rw [crawlLoop_none hnone]

/-- C9 witness: on a site where every fetch raises, the crawl of the
start URL returns the empty page list. -/
theorem claim9_crawl_error_tolerant_witness :
    run_crawl envFail "https://down.example.com/" 25 = [] :=
  (claim9_crawl_error_tolerant envFail "https://down.example.com/" 25).2 (Or.inl rfl)

/-- The greedy occurrence list has exactly `pyCountAux` entries. -/
theorem occListAux_length (t w : List Char) (i : Nat) :
    (occListAux t w i).length = pyCountAux t w := by
  induction t, w, i using occListAux.induct with
  | case1 w i => simp [occListAux, pyCountAux]
  | case2 c rest w i hpre ih =>
    simp [occListAux, pyCountAux, hpre, ih]
    omega
  | case3 c rest w i hpre ih => simp [occListAux, pyCountAux, hpre, ih]

/-- Every index produced by the scan lies at or beyond the scan
position. -/
theorem occListAux_mem_le (t w : List Char) (i : Nat) :
    ∀ j ∈ occListAux t w i, i ≤ j := by
  induction t, w, i using occListAux.induct with
  | case1 w i => simp [occListAux]
  | case2 c rest w i hpre ih =>
    intro j hj
    simp only [occListAux, hpre, if_true] at hj
    rcases List.mem_cons.mp hj with rfl | hj'
    · exact Nat.le_refl j
    · have := ih j hj'
      omega
  | case3 c rest w i hpre ih =>
    intro j hj
    simp only [occListAux, hpre, if_false] at hj
    have := ih j hj
    omega

/-- Matching is preserved by dropping a prefix of the text. -/
theorem matchesAt_drop {t w : List Char} {k p : Nat} (hk : k ≤ p) (h : matchesAt t w p) :
    matchesAt (t.drop k) w (p - k) := by
  unfold matchesAt at h ⊢
  rw [List.drop_drop, Nat.add_sub_cancel' hk]
  exact h

/-- Matching at index zero is the prefix test. -/
theorem matchesAt_zero_iff {t w : List Char} :
    matchesAt t w 0 ↔ w.isPrefixOf t = true := by
  rw [matchesAt, List.drop_zero, List.isPrefixOf_iff_prefix, List.prefix_iff_eq_take]
  constructor
  · intro h
    exact h.symm
  · intro h
    exact h.symm

/-- Every index produced by the scan is a genuine occurrence of the
pattern in the text. -/
theorem occListAux_valid (t w : List Char) (i : Nat) :
    ∀ j ∈ occListAux t w i, matchesAt t w (j - i) := by
  induction t, w, i using occListAux.induct with
  | case1 w i => simp [occListAux]
  | case2 c rest w i hpre ih =>
    intro j hj
    simp only [occListAux, hpre, if_true] at hj
    rcases List.mem_cons.mp hj with rfl | hj'
    · rw [Nat.sub_self]
      exact matchesAt_zero_iff.mpr hpre
    · have hge := occListAux_mem_le _ _ _ j hj'
      have hm := ih j hj'
      unfold matchesAt at hm ⊢
      have hdrop : List.drop (j - (i + 1 + (w.length - 1))) (List.drop (w.length - 1) rest) =
          List.drop (j - i) (c :: rest) := by
        rw [List.drop_drop]
        have harith : j - i = ((w.length - 1) + (j - (i + 1 + (w.length - 1)))) + 1 := by
          omega
        rw [harith, List.drop_succ_cons]
      rw [← hdrop]
      exact hm
  | case3 c rest w i hpre ih =>
    intro j hj
    simp only [occListAux, hpre, if_false] at hj
    have hge := occListAux_mem_le _ _ _ j hj
    have hm := ih j hj
    unfold matchesAt at hm ⊢
    have hdrop : List.drop (j - (i + 1)) rest = List.drop (j - i) (c :: rest) := by
      have harith : j - i = (j - (i + 1)) + 1 := by omega
      rw [harith, List.drop_succ_cons]
    rw [← hdrop]
    exact hm

/-- The scan positions are non-overlapping: consecutive occurrences
are at least a pattern length apart. -/
theorem occListAux_gapped (t w : List Char) (i : Nat) :
    gapped w.length (occListAux t w i) := by
  induction t, w, i using occListAux.induct with
  | case1 w i => simp [occListAux, gapped]
  | case2 c rest w i hpre ih =>
    simp only [occListAux, hpre, if_true]
    rw [gapped, List.chain'_cons']
    constructor
    · intro y hy
      have := occListAux_mem_le _ _ _ y (List.mem_of_mem_head? hy)
      omega
    · exact ih
  | case3 c rest w i hpre ih =>
    simp only [occListAux, hpre, if_false]
    exact ih

/-- A consecutive-gap bound extends to every later entry. -/
theorem chain_ge {k : Nat} : ∀ {p : Nat} {ps : List Nat}, gapped k (p :: ps) →
    ∀ q ∈ ps, p + k ≤ q := by
  intro p ps
  induction ps generalizing p with
  | nil =>
    intro _ q hq
    cases hq
  | cons b bs ih =>
    intro hch q hq
    rw [gapped, List.chain'_cons] at hch
    rcases List.mem_cons.mp hq with rfl | hq'
    · exact hch.1
    · have hb := ih hch.2 q hq'
      have h1 := hch.1
      omega

/-- Shifting a bounded non-overlapping list down by a constant keeps
it non-overlapping. -/
theorem gapped_shift {k g : Nat} : ∀ {P : List Nat}, (∀ p ∈ P, k ≤ p) → gapped g P →
    gapped g (P.map (fun x => x - k)) := by
  intro P
  induction P with
  | nil =>
    intro _ _
    simp [gapped]
  | cons a l ih =>
    cases l with
    | nil =>
      intro _ _
      simp [gapped]
    | cons b bs =>
      intro hb hch
      rw [gapped, List.chain'_cons] at hch
      obtain ⟨h1, h2⟩ := hch
      rw [List.map_cons, List.map_cons, gapped, List.chain'_cons]
      constructor
      · have ha := hb a (by simp)
        have hbb := hb b (by simp)
        omega
      · have := ih (fun p hp => hb p (List.mem_cons_of_mem _ hp)) h2
        simpa using this

/-- The greedy scan is maximal: no non-overlapping family of
occurrences of a nonempty pattern is larger than the greedy count. -/
theorem greedy_count_max : ∀ (t w : List Char), w ≠ [] →
    ∀ P : List Nat, (∀ p ∈ P, matchesAt t w p) → gapped w.length P →
      P.length ≤ pyCountAux t w := by
  intro t w
  induction t, w using pyCountAux.induct with
  | case1 w =>
    intro hw P hval hgap
    cases P with
    | nil => simp
    | cons p ps =>
      have h := hval p (by simp)
      unfold matchesAt at h
      simp only [List.drop_nil, List.take_nil] at h
      exact absurd h.symm hw
  | case2 c rest w hpre ih =>
    intro hw P hval hgap
    cases P with
    | nil =>
      simp
    | cons p ps =>
      have hcount : pyCountAux (c :: rest) w = 1 + pyCountAux (rest.drop (w.length - 1)) w := by
        simp [pyCountAux, hpre]
      rw [hcount]
      have hge : ∀ q ∈ ps, w.length ≤ q := by
        intro q hq
        have := chain_ge hgap q hq
        omega
      have hdrop : (c :: rest).drop w.length = rest.drop (w.length - 1) := by
        obtain ⟨n, hn⟩ := Nat.exists_eq_succ_of_ne_zero
          (fun h0 => hw (List.eq_nil_of_length_eq_zero h0))
        simp [hn]
      have hval' : ∀ q ∈ ps.map (fun x => x - w.length),
          matchesAt (rest.drop (w.length - 1)) w q := by
        intro q hq
        rcases List.mem_map.mp hq with ⟨q0, hq0, rfl⟩
        rw [← hdrop]
        exact matchesAt_drop (hge q0 hq0) (hval q0 (List.mem_cons_of_mem _ hq0))
      have hgap' : gapped w.length (ps.map (fun x => x - w.length)) := by
        apply gapped_shift hge
        rw [gapped]
        rw [gapped] at hgap
        exact (List.chain'_cons'.mp hgap).2
      have hP := ih hw _ hval' hgap'
      simp only [List.length_map] at hP
      simp only [List.length_cons]
      omega
  | case3 c rest w hpre ih =>
    intro hw P hval hgap
    have hcount : pyCountAux (c :: rest) w = pyCountAux rest w := by
      simp [pyCountAux, hpre]
    rw [hcount]
    have hpos : ∀ p ∈ P, 1 ≤ p := by
      intro p hp
      rcases Nat.eq_zero_or_pos p with rfl | h1
      · exact absurd (matchesAt_zero_iff.mp (hval 0 hp)) hpre
      · exact h1
    have hd1 : (c :: rest).drop 1 = rest := rfl
    have hval' : ∀ q ∈ P.map (fun x => x - 1), matchesAt rest w q := by
      intro q hq
      rcases List.mem_map.mp hq with ⟨q0, hq0, rfl⟩
      have hm := matchesAt_drop (hpos q0 hq0) (hval q0 hq0)
      rwa [hd1] at hm
    have hgap' := gapped_shift hpos hgap
    have hP := ih hw _ hval' hgap'
    simpa using hP

/-- C2: for a nonempty word, `text.count` is exactly the size of the
greedy list of non-overlapping occurrence positions, each listed
position is a genuine substring occurrence, consecutive positions do
not overlap, and no non-overlapping family of occurrences is larger —
so the count is the number of non-overlapping substring occurrences.
`count_hits` sums these counts over the word list, and scoring the
text `fixer fixer` against the single positive word `fix` yields two
hits (substring matching, not tokenized). -/
theorem claim2_count_hits :
    (∀ (t w : List Char), w ≠ [] →
      pyCount t w = (occList t w).length ∧
      (∀ i ∈ occList t w, matchesAt t w i) ∧
      gapped w.length (occList t w) ∧
      (∀ P : List Nat, (∀ p ∈ P, matchesAt t w p) → gapped w.length P →
        P.length ≤ pyCount t w)) ∧
    (∀ (text : String) (words : List String),
      count_hits text words = (words.map (fun w => pyCount text.data w.data)).sum) ∧
    count_hits "fixer fixer" ["fix"] = 2 := by
  refine ⟨?_, fun _ _ => rfl, by decide⟩
  intro t w hw
  have hne : w.isEmpty = false := by
    cases w
    · exact absurd rfl hw
    · rfl
  have hpc : pyCount t w = pyCountAux t w := by
    rw [pyCount_eq, hne]
    rfl
  refine ⟨?_, ?_, ?_, ?_⟩
  · rw [hpc, occList, occListAux_length]
  · intro i hi
    have := occListAux_valid t w 0 i hi
    rwa [Nat.sub_zero] at this
  · exact occListAux_gapped t w 0
  · intro P hval hgap
    rw [hpc]
    exact greedy_count_max t w hw P hval hgap

/-- C2 witness: the occurrence characterization instantiated at the
text `fixer fixer` and word `fix`. -/
theorem claim2_count_hits_witness :
    pyCount "fixer fixer".data "fix".data = (occList "fixer fixer".data "fix".data).length ∧
    (∀ i ∈ occList "fixer fixer".data "fix".data,
      matchesAt "fixer fixer".data "fix".data i) ∧
    gapped "fix".data.length (occList "fixer fixer".data "fix".data) ∧
    (∀ P : List Nat, (∀ p ∈ P, matchesAt "fixer fixer".data "fix".data p) →
      gapped "fix".data.length P → P.length ≤ pyCount "fixer fixer".data "fix".data) :=
  claim2_count_hits.1 "fixer fixer".data "fix".data (by decide)

/-- Characters in the lowercase range are produced faithfully by
`Char.ofNat`. -/
theorem toNat_ofNat_lower {n : Nat} (h1 : 97 ≤ n) (h2 : n ≤ 122) :
    (Char.ofNat n).toNat = n := by
  have hv : n.isValidChar := Or.inl (by omega)
  unfold Char.ofNat
  rw [dif_pos hv]
  rfl

/-- Lowercasing does not change whitespace classification. -/
theorem pySpace_pyToLower (c : Char) : pySpace (pyToLower c) = pySpace c := by
  by_cases h : 65 ≤ c.toNat ∧ c.toNat ≤ 90
  · have h1 : pyToLower c = Char.ofNat (c.toNat + 32) := by
      unfold pyToLower
      rw [if_pos h]
    have ht : (Char.ofNat (c.toNat + 32)).toNat = c.toNat + 32 :=
      toNat_ofNat_lower (by omega) (by omega)
    have hl : pySpace (Char.ofNat (c.toNat + 32)) = false := by
      simp only [pySpace, ht]
      simp only [Bool.or_eq_false_iff, decide_eq_false_iff_not]
      omega
    have hr : pySpace c = false := by
      simp only [pySpace]
      simp only [Bool.or_eq_false_iff, decide_eq_false_iff_not]
      omega
    rw [h1, hl, hr]
  · have h1 : pyToLower c = c := by
      unfold pyToLower
      rw [if_neg h]
    rw [h1]

/-- Lowercasing is idempotent on characters. -/
theorem pyToLower_idem (c : Char) : pyToLower (pyToLower c) = pyToLower c := by
  by_cases h : 65 ≤ c.toNat ∧ c.toNat ≤ 90
  · have h1 : pyToLower c = Char.ofNat (c.toNat + 32) := by
      unfold pyToLower
      rw [if_pos h]
    have ht : (Char.ofNat (c.toNat + 32)).toNat = c.toNat + 32 :=
      toNat_ofNat_lower (by omega) (by omega)
    have hcond : ¬(65 ≤ (Char.ofNat (c.toNat + 32)).toNat ∧
        (Char.ofNat (c.toNat + 32)).toNat ≤ 90) := by
      rw [ht]
      omega
    rw [h1]
    unfold pyToLower
    rw [if_neg hcond]
  · have h1 : pyToLower c = c := by
      unfold pyToLower
      rw [if_neg h]
    rw [h1, h1]

/-- The space character is its own lowercase form. -/
theorem pyToLower_space : pyToLower ' ' = ' ' := by decide

/-- Lowercasing commutes with whitespace collapsing. -/
theorem collapseAux_lower (l : List Char) : ∀ b : Bool,
    collapseAux b (l.map pyToLower) = (collapseAux b l).map pyToLower := by
  induction l with
  | nil =>
    intro b
    simp [collapseAux]
  | cons c rest ih =>
    intro b
    by_cases hs : pySpace c = true
    · have hs2 : pySpace (pyToLower c) = true := by
        rw [pySpace_pyToLower]
        exact hs
      cases b
      · simp [collapseAux, hs, hs2, ih, pyToLower_space]
      · simp [collapseAux, hs, hs2, ih]
    · have hs2 : pySpace (pyToLower c) = false := by
        rw [pySpace_pyToLower]
        simpa using hs
      cases b <;> simp [collapseAux, hs, hs2, ih]

/-- Whitespace collapsing is idempotent (for either starting flag). -/
theorem collapseAux_idem (l : List Char) : ∀ b : Bool,
    collapseAux b (collapseAux b l) = collapseAux b l := by
  induction l with
  | nil =>
    intro b
    simp [collapseAux]
  | cons c rest ih =>
    intro b
    by_cases hs : pySpace c = true
    · cases b
      · have hsp : pySpace ' ' = true := by decide
        simp [collapseAux, hs, hsp]
        exact ih true
      · simp [collapseAux, hs]
        exact ih true
    · cases b <;> simp [collapseAux, hs] <;> exact ih false

/-- String lowercasing is idempotent. -/
theorem lowerStr_idem (l : List Char) : lowerStr (lowerStr l) = lowerStr l := by
  unfold lowerStr
  rw [List.map_map]
  apply List.map_congr_left
  intro a _
  exact pyToLower_idem a

/-- The in-repository normalization stage of `clean_text` is
idempotent. -/
theorem normStage_idem (s : String) : normStage (normStage s) = normStage s := by
  have hlist : lowerStr (collapseWS (lowerStr (collapseWS s.data))) =
      lowerStr (collapseWS s.data) := by
    unfold collapseWS lowerStr
    rw [collapseAux_lower (collapseAux false s.data) false]
    rw [collapseAux_idem s.data false]
    rw [List.map_map]
    apply List.map_congr_left
    intro a _
    exact pyToLower_idem a
  exact congrArg String.mk hlist

/-- C10: `clean_text` is idempotent: whenever the external markup
parser returns already-normalized (markup-free) text unchanged — the
documented behaviour of best-effort parsing on plain text — applying
`clean_text` to its own output returns that output; and the
in-repository normalization stage (whitespace collapse then
lowercasing) is unconditionally a projection, so normalized text is a
fixed point. -/
theorem claim10_clean_text_idempotent :
    (∀ (get_text : String → String) (html : String),
      get_text (clean_text get_text html) = clean_text get_text html →
      clean_text get_text (clean_text get_text html) = clean_text get_text html) ∧
    (∀ s : String, normStage (normStage s) = normStage s) := by
  refine ⟨?_, normStage_idem⟩
  intro g h hg
  show normStage (g (clean_text g h)) = clean_text g h
  rw [hg]
  exact normStage_idem (g h)

/-- C10 witness: the idempotence theorem applied with the identity
parser (plain text passes through unchanged) on a concrete document. -/
theorem claim10_clean_text_idempotent_witness :
    clean_text (fun s => s) (clean_text (fun s => s) "Hello   World") =
      clean_text (fun s => s) "Hello   World" :=
  claim10_clean_text_idempotent.1 (fun s => s) "Hello   World" rfl
